import Mathlib

/-!
Verification of the reconciliation engine of the bookmarks application
(`src/App.tsx`): the pure merge function `mergeData`, the tombstone sweep
`cleanupOldTombstones`, and the sync coordinator `syncWithServer`.

Modelling conventions:
* ISO timestamp strings are modelled by their epoch-millisecond value
  (`Int`), since the code only ever consumes them through
  `new Date(s).getTime()` or `Date` comparison; a valid timestamp string
  is nonempty, hence truthy in JavaScript, so `a || b` on two optional
  timestamps is `if a.isSome then a else b`.
* Optional fields (`deleted?: boolean`, `deletedAt?: string`) become
  `Option Bool` / `Option Int`; JavaScript truthiness of `deleted` is
  `· = some true`.
* A JavaScript `Map` built by `forEach`/`set` and read back with
  `Array.from(map.values())` is modelled by an association list with
  in-place update on an existing key and append on a fresh key, which is
  exactly the Map's insertion-order semantics.
-/

/-- `Bookmark` record from `src/types.ts`. -/
structure Bookmark where
  id : String
  title : String
  url : String
  description : String
  tags : List String
  notes : String
  createdAt : Int
  updatedAt : Int
  deleted : Option Bool := none
  deletedAt : Option Int := none
deriving Repr, DecidableEq

/-- `Category` record from `src/types.ts`. -/
structure Category where
  id : String
  name : String
  bookmarks : List Bookmark
  deleted : Option Bool := none
  deletedAt : Option Int := none
deriving Repr, DecidableEq

/-- `SharedOwner` record from `src/types.ts` (permission is the string
literal type `'read' | 'write'`). -/
structure SharedOwner where
  id : String
  email : String
  name : Option String := none
  permission : String
deriving Repr, DecidableEq

/-- `Bucket` record from `src/types.ts`, including the shared-bucket
extension fields. -/
structure Bucket where
  id : String
  name : String
  categories : List Category
  deleted : Option Bool := none
  deletedAt : Option Int := none
  isShared : Option Bool := none
  owners : Option (List SharedOwner) := none
  createdBy : Option String := none
deriving Repr, DecidableEq

/-- `AppData` record from `src/types.ts`. -/
structure AppData where
  buckets : List Bucket
deriving Repr, DecidableEq

/-- JavaScript `a || b` on two optional booleans (`deleted` fields):
the result is `a`'s value when `a` is truthy (`some true`), otherwise `b`. -/
def jsOrBool (a b : Option Bool) : Option Bool :=
  if a = some true then some true else b

/-- JavaScript `a || b` on two optional timestamps (`deletedAt` fields):
a present (valid, hence nonempty) timestamp string is truthy, so the
result is `a` when present, otherwise `b`. -/
def jsOrTime (a b : Option Int) : Option Int :=
  if a.isSome then a else b

/-! ### JavaScript `Map` model -/

/-- The keys of an association list. -/
def keysOf {α : Type} (m : List (String × α)) : List String :=
  m.map Prod.fst

/-- `map.has(k)`. -/
def hasKey {α : Type} : List (String × α) → String → Bool
  | [], _ => false
  | p :: m, k => if p.1 = k then true else hasKey m k

/-- `map.get(k)`: the first (and, once built via `jsMapSet`, only) entry
with key `k`. -/
def lookupEntry {α : Type} : List (String × α) → String → Option α
  | [], _ => none
  | p :: m, k => if p.1 = k then some p.2 else lookupEntry m k

/-- `map.set(k, v)`: replace in place when the key exists, append otherwise
(JavaScript `Map` insertion-order semantics). -/
def jsMapSet {α : Type} (m : List (String × α)) (k : String) (v : α) :
    List (String × α) :=
  if hasKey m k then m.map (fun p => if p.1 = k then (k, v) else p)
  else m ++ [(k, v)]

/-- The first `forEach` loop of each level of `mergeData`: insert every
element of `xs`, keyed by `key`, into the map `m`. -/
def insertAll {α : Type} (key : α → String) (xs : List α)
    (m : List (String × α)) : List (String × α) :=
  xs.foldl (fun m x => jsMapSet m (key x) x) m

/-- The second `forEach` loop of each level of `mergeData`: for each remote
element, merge with the existing entry when present, otherwise insert the
remote copy. -/
def mergePhase {α : Type} (key : α → String) (mf : α → α → α) (rs : List α)
    (m : List (String × α)) : List (String × α) :=
  rs.foldl (fun m r =>
    match lookupEntry m (key r) with
    | some l => jsMapSet m (key r) (mf l r)
    | none => jsMapSet m (key r) r) m

/-- One level of `mergeData`'s union-merge: local elements first, then the
remote pass, read back in insertion order (`Array.from(map.values())`). -/
def mergeById {α : Type} (key : α → String) (mf : α → α → α)
    (ls rs : List α) : List α :=
  (mergePhase key mf rs (insertAll key ls [])).map Prod.snd

/-! ### The merge engine (`mergeData`, `src/App.tsx` lines 80–181) -/

/-- Merge of a bookmark present on both sides (`src/App.tsx` 125–145):
a deletion on either side wins and the remote copy supplies the other
fields; otherwise the strictly newer `updatedAt` wins, ties keep local. -/
def mergeBookmark (localBm serverBm : Bookmark) : Bookmark :=
  if localBm.deleted = some true ∨ serverBm.deleted = some true then
    { serverBm with
        deleted := some true
        deletedAt := jsOrTime localBm.deletedAt serverBm.deletedAt }
  else if localBm.updatedAt < serverBm.updatedAt then serverBm
  else localBm

/-- Merge of a category present on both sides (`src/App.tsx` 108–158). -/
def mergeCategory (localCat serverCat : Category) : Category :=
  { localCat with
      name := serverCat.name
      bookmarks := mergeById Bookmark.id mergeBookmark
        localCat.bookmarks serverCat.bookmarks
      deleted := jsOrBool localCat.deleted serverCat.deleted
      deletedAt := jsOrTime localCat.deletedAt serverCat.deletedAt }

/-- Merge of a bucket present on both sides (`src/App.tsx` 91–171). -/
def mergeBucket (localBucket serverBucket : Bucket) : Bucket :=
  { localBucket with
      name := serverBucket.name
      categories := mergeById Category.id mergeCategory
        localBucket.categories serverBucket.categories
      deleted := jsOrBool localBucket.deleted serverBucket.deleted
      deletedAt := jsOrTime localBucket.deletedAt serverBucket.deletedAt }

/-- `mergeData` (`src/App.tsx` 80–181). -/
def mergeData (localData serverDataObj : AppData) : AppData :=
  { buckets := mergeById Bucket.id mergeBucket
      localData.buckets serverDataObj.buckets }

/-! ### Lookup helpers and well-formedness -/

/-- Find an element by id in a list of entities (first match, as
`Array.prototype.find`). -/
def findById {α : Type} (key : α → String) : List α → String → Option α
  | [], _ => none
  | x :: xs, k => if key x = k then some x else findById key xs k

/-- Find a bucket by id. -/
def findBucket (d : AppData) (k : String) : Option Bucket :=
  findById Bucket.id d.buckets k

/-- Find a category by id inside a bucket. -/
def findCategory (b : Bucket) (k : String) : Option Category :=
  findById Category.id b.categories k

/-- Find a bookmark by id inside a category. -/
def findBookmark (c : Category) (k : String) : Option Bookmark :=
  findById Bookmark.id c.bookmarks k

/-- Well-formedness of a tree: ids are distinct at every level (the spec
makes id the sole identity, assigned once and never reused). -/
def NodupTree (d : AppData) : Prop :=
  (d.buckets.map Bucket.id).Nodup ∧
  ∀ b ∈ d.buckets, (b.categories.map Category.id).Nodup ∧
    ∀ c ∈ b.categories, (c.bookmarks.map Bookmark.id).Nodup

instance (d : AppData) : Decidable (NodupTree d) := by
  unfold NodupTree; infer_instance

/-- Invariant of the maps built by `mergeData`: every entry is stored under
the id of the value it holds. -/
def EntryOk {α : Type} (key : α → String) (m : List (String × α)) : Prop :=
  ∀ p ∈ m, key p.2 = p.1

/-! ### Claim properties for the merge engine -/

/-- Tombstone monotonicity, stated per level: any entity present in both
inputs with a deletion on either side is deleted in the output. -/
def TombstoneMonotonic (L R : AppData) : Prop :=
  (∀ bl ∈ L.buckets, ∀ br ∈ R.buckets, bl.id = br.id →
    (bl.deleted = some true ∨ br.deleted = some true) →
    ∃ b, findBucket (mergeData L R) br.id = some b ∧ b.deleted = some true)
  ∧ (∀ bl ∈ L.buckets, ∀ br ∈ R.buckets, bl.id = br.id →
     ∀ cl ∈ bl.categories, ∀ cr ∈ br.categories, cl.id = cr.id →
     (cl.deleted = some true ∨ cr.deleted = some true) →
     ∃ b, findBucket (mergeData L R) br.id = some b ∧
       ∃ c, findCategory b cr.id = some c ∧ c.deleted = some true)
  ∧ (∀ bl ∈ L.buckets, ∀ br ∈ R.buckets, bl.id = br.id →
     ∀ cl ∈ bl.categories, ∀ cr ∈ br.categories, cl.id = cr.id →
     ∀ xl ∈ cl.bookmarks, ∀ xr ∈ cr.bookmarks, xl.id = xr.id →
     (xl.deleted = some true ∨ xr.deleted = some true) →
     ∃ b, findBucket (mergeData L R) br.id = some b ∧
       ∃ c, findCategory b cr.id = some c ∧
         ∃ x, findBookmark c xr.id = some x ∧ x.deleted = some true)

/-- Leaf timestamp dominance: a bookmark present on both sides with
neither copy deleted merges to whichever copy has the strictly greater
`updatedAt`, ties keeping the local copy. -/
def LeafTimestampDominance (L R : AppData) : Prop :=
  ∀ bl ∈ L.buckets, ∀ br ∈ R.buckets, bl.id = br.id →
  ∀ cl ∈ bl.categories, ∀ cr ∈ br.categories, cl.id = cr.id →
  ∀ xl ∈ cl.bookmarks, ∀ xr ∈ cr.bookmarks, xl.id = xr.id →
  ¬xl.deleted = some true → ¬xr.deleted = some true →
  ∃ b, findBucket (mergeData L R) br.id = some b ∧
    ∃ c, findCategory b cr.id = some c ∧
      findBookmark c xr.id
        = some (if xl.updatedAt < xr.updatedAt then xr else xl)

/-- Deletion short-circuit at the leaf: when a bookmark is present on both
sides and either copy is deleted, the merged bookmark is deleted, takes
`deletedAt` from the local copy when present (otherwise from the remote),
and takes every other field from the remote copy. -/
def DeletionShortCircuit (L R : AppData) : Prop :=
  ∀ bl ∈ L.buckets, ∀ br ∈ R.buckets, bl.id = br.id →
  ∀ cl ∈ bl.categories, ∀ cr ∈ br.categories, cl.id = cr.id →
  ∀ xl ∈ cl.bookmarks, ∀ xr ∈ cr.bookmarks, xl.id = xr.id →
  (xl.deleted = some true ∨ xr.deleted = some true) →
  ∃ b, findBucket (mergeData L R) br.id = some b ∧
    ∃ c, findCategory b cr.id = some c ∧
      ∃ x, findBookmark c xr.id = some x ∧
        x.deleted = some true ∧
        x.deletedAt
          = (if xl.deletedAt.isSome then xl.deletedAt else xr.deletedAt) ∧
        x.id = xr.id ∧ x.title = xr.title ∧ x.url = xr.url ∧
        x.description = xr.description ∧ x.tags = xr.tags ∧
        x.notes = xr.notes ∧ x.createdAt = xr.createdAt ∧
        x.updatedAt = xr.updatedAt

/-- Name precedence: a bucket or category id present in both inputs takes
the remote copy's name in the output, whatever the other fields are. -/
def NamePrecedence (L R : AppData) : Prop :=
  (∀ bl ∈ L.buckets, ∀ br ∈ R.buckets, bl.id = br.id →
    ∃ b, findBucket (mergeData L R) br.id = some b ∧ b.name = br.name)
  ∧ (∀ bl ∈ L.buckets, ∀ br ∈ R.buckets, bl.id = br.id →
     ∀ cl ∈ bl.categories, ∀ cr ∈ br.categories, cl.id = cr.id →
     ∃ b, findBucket (mergeData L R) br.id = some b ∧
       ∃ c, findCategory b cr.id = some c ∧ c.name = cr.name)

/-- Union completeness: every bucket id present in either input is present
in the output; for a bucket present in both, every category id from either
copy is present in the merged bucket, and likewise for bookmark ids within
a category present in both; buckets and categories present only in local
are retained unchanged. -/
def UnionCompleteness (L R : AppData) : Prop :=
  (∀ k, ((∃ b ∈ L.buckets, b.id = k) ∨ (∃ b ∈ R.buckets, b.id = k)) →
    ∃ b ∈ (mergeData L R).buckets, b.id = k)
  ∧ (∀ bl ∈ L.buckets, ∀ br ∈ R.buckets, bl.id = br.id → ∀ k,
      ((∃ c ∈ bl.categories, c.id = k) ∨ (∃ c ∈ br.categories, c.id = k)) →
      ∃ b, findBucket (mergeData L R) br.id = some b ∧
        ∃ c ∈ b.categories, c.id = k)
  ∧ (∀ bl ∈ L.buckets, ∀ br ∈ R.buckets, bl.id = br.id →
     ∀ cl ∈ bl.categories, ∀ cr ∈ br.categories, cl.id = cr.id → ∀ k,
      ((∃ x ∈ cl.bookmarks, x.id = k) ∨ (∃ x ∈ cr.bookmarks, x.id = k)) →
      ∃ b, findBucket (mergeData L R) br.id = some b ∧
        ∃ c, findCategory b cr.id = some c ∧ ∃ x ∈ c.bookmarks, x.id = k)
  ∧ (∀ bl ∈ L.buckets, (∀ br ∈ R.buckets, br.id ≠ bl.id) →
      findBucket (mergeData L R) bl.id = some bl)
  ∧ (∀ bl ∈ L.buckets, ∀ br ∈ R.buckets, bl.id = br.id →
     ∀ cl ∈ bl.categories, (∀ cr ∈ br.categories, cr.id ≠ cl.id) →
      ∃ b, findBucket (mergeData L R) br.id = some b ∧
        findCategory b cl.id = some cl)

/-- Frame property of the merge at bucket and category level: the merged
entity keeps every field other than `name`, the merged child list,
`deleted` and `deletedAt` from the local copy (`isShared`, `owners`,
`createdBy`, `id`); asymmetrically, a merged bookmark decided by a
deletion takes those other fields from the remote copy. -/
def MergeFrame (L R : AppData) : Prop :=
  (∀ bl ∈ L.buckets, ∀ br ∈ R.buckets, bl.id = br.id →
    ∃ b, findBucket (mergeData L R) br.id = some b ∧
      b.id = bl.id ∧ b.isShared = bl.isShared ∧ b.owners = bl.owners ∧
      b.createdBy = bl.createdBy)
  ∧ (∀ bl ∈ L.buckets, ∀ br ∈ R.buckets, bl.id = br.id →
     ∀ cl ∈ bl.categories, ∀ cr ∈ br.categories, cl.id = cr.id →
     ∃ b, findBucket (mergeData L R) br.id = some b ∧
       ∃ c, findCategory b cr.id = some c ∧ c.id = cl.id)
  ∧ (∀ bl ∈ L.buckets, ∀ br ∈ R.buckets, bl.id = br.id →
     ∀ cl ∈ bl.categories, ∀ cr ∈ br.categories, cl.id = cr.id →
     ∀ xl ∈ cl.bookmarks, ∀ xr ∈ cr.bookmarks, xl.id = xr.id →
     (xl.deleted = some true ∨ xr.deleted = some true) →
     ∃ b, findBucket (mergeData L R) br.id = some b ∧
       ∃ c, findCategory b cr.id = some c ∧
         ∃ x, findBookmark c xr.id = some x ∧
           x.title = xr.title ∧ x.url = xr.url ∧ x.notes = xr.notes)

/-! ### Tombstone sweep (`cleanupOldTombstones`, `src/App.tsx` 951–986) -/

/-- The fixed retention window of the sweep: 30 days in milliseconds. -/
def thirtyDaysMs : Int := 30 * 24 * 60 * 60 * 1000

/-- The filter applied at each level of the sweep: when `deleted` and
`deletedAt` are both truthy, keep the entity iff
`new Date(deletedAt) > thirtyDaysAgo`; otherwise keep it. -/
def keepTomb (now : Int) (del : Option Bool) (delAt : Option Int) : Bool :=
  match del, delAt with
  | some true, some t => decide (t > now - thirtyDaysMs)
  | _, _ => true

/-- The bookmark-level pass of the sweep: drop expired bookmark
tombstones inside one category. -/
def sweepCategory (now : Int) (c : Category) : Category :=
  let kept := c.bookmarks.filter (fun x => keepTomb now x.deleted x.deletedAt)
  { c with bookmarks := kept }

/-- The category-level pass of the sweep inside one bucket. -/
def sweepBucket (now : Int) (b : Bucket) : Bucket :=
  let kept := b.categories.filter (fun c => keepTomb now c.deleted c.deletedAt)
  { b with categories := kept.map (sweepCategory now) }

/-- `cleanupOldTombstones` (`src/App.tsx` 951–986): each level is filtered
by its own tombstone age; `Date.now()` is passed in as `now`. -/
def cleanupOldTombstones (now : Int) (d : AppData) : AppData :=
  let kept := d.buckets.filter (fun b => keepTomb now b.deleted b.deletedAt)
  { d with buckets := kept.map (sweepBucket now) }

/-- Spec-side expiry predicate (amended boundary): an entity is swept iff
it is deleted and its tombstone is at least the retention window old. -/
def tombExpired (now : Int) (del : Option Bool) (delAt : Option Int) :
    Prop :=
  del = some true ∧ ∃ t, delAt = some t ∧ now - t ≥ thirtyDaysMs

/-- Exact behaviour of the sweep (spec side, with the boundary the code
implements): an entity is dropped iff its own tombstone has expired;
every surviving entity keeps all its fields, its child list being the
sweep of its original children. -/
def CleanupSpec (now : Int) (d : AppData) : Prop :=
  (∀ b ∈ d.buckets, tombExpired now b.deleted b.deletedAt →
    findBucket (cleanupOldTombstones now d) b.id = none)
  ∧ (∀ b ∈ d.buckets, ¬tombExpired now b.deleted b.deletedAt →
     ∃ b', findBucket (cleanupOldTombstones now d) b.id = some b' ∧
       b'.id = b.id ∧ b'.name = b.name ∧ b'.deleted = b.deleted ∧
       b'.deletedAt = b.deletedAt ∧ b'.isShared = b.isShared ∧
       b'.owners = b.owners ∧ b'.createdBy = b.createdBy ∧
       (∀ c ∈ b.categories, tombExpired now c.deleted c.deletedAt →
         findCategory b' c.id = none) ∧
       (∀ c ∈ b.categories, ¬tombExpired now c.deleted c.deletedAt →
         ∃ c', findCategory b' c.id = some c' ∧
           c'.id = c.id ∧ c'.name = c.name ∧ c'.deleted = c.deleted ∧
           c'.deletedAt = c.deletedAt ∧
           (∀ x ∈ c.bookmarks, tombExpired now x.deleted x.deletedAt →
             findBookmark c' x.id = none) ∧
           (∀ x ∈ c.bookmarks, ¬tombExpired now x.deleted x.deletedAt →
             findBookmark c' x.id = some x)))

/-! ### Sync coordinator (`syncWithServer`, `src/App.tsx` 184–221) -/

/-- Result of `serverData.check` (`src/api.ts` 152–170): an error flag and
an optional version stamp. -/
structure CheckResult where
  error : Bool
  lastModified : Option Int
deriving Repr, DecidableEq

/-- Result of `serverData.load` (`src/api.ts` 100–125). -/
structure LoadResult where
  error : Bool
  data : Option AppData
  lastModified : Option Int
deriving Repr, DecidableEq

/-- Result of `sharedBuckets.loadAll`. -/
structure SharedResult where
  error : Bool
  buckets : List Bucket
deriving Repr, DecidableEq

/-- One network call issued by a sync cycle. -/
inductive NetCall where
  | check
  | load
  | sharedLoadAll
deriving Repr, DecidableEq

/-- Behaviour of the network during one sync cycle: each call either
returns its result object or throws (`Except.error`). -/
structure NetEnv where
  check : Except Unit CheckResult
  load : Except Unit LoadResult
  shared : Except Unit SharedResult

/-- The component state and refs read or written by `syncWithServer`: the
authenticated user, the `isSyncingRef` guard, the online flag, the
in-memory tree (`data`), the local store contents (written via
`storage.save`), `serverLastModified`, `serverReachable`, and the
shared-buckets list. -/
structure SyncState where
  user : Option String
  isSyncing : Bool
  isOnline : Bool
  data : AppData
  stored : AppData
  serverLastModified : Option Int
  serverReachable : Bool
  sharedBucketsData : List Bucket
deriving Repr, DecidableEq

/-- The tail of every non-thrown path of `syncWithServer`: the
`sharedBuckets.loadAll` refresh (`src/App.tsx` 210–214), the `catch`
(215–217) and the `finally` clearing the guard (218–220). -/
def sharedStep (env : NetEnv) (s1 : SyncState) (calls : List NetCall) :
    SyncState × List NetCall :=
  match env.shared with
  | Except.error _ =>
    ({ s1 with serverReachable := false, isSyncing := false },
      calls ++ [NetCall.sharedLoadAll])
  | Except.ok r =>
    if r.error = false then
      ({ s1 with sharedBucketsData := r.buckets, isSyncing := false },
        calls ++ [NetCall.sharedLoadAll])
    else
      ({ s1 with isSyncing := false }, calls ++ [NetCall.sharedLoadAll])

/-- Model of `syncWithServer` (`src/App.tsx` 184–221). The guard tests
only `user` and `isSyncingRef` — there is no offline test in the
function. A thrown `check`/`load` is caught, setting
`serverReachable := false`; a `load` that returns an error result (or no
data) silently skips the merge; the `finally` always clears the guard.
Returns the final state and the network calls issued. -/
def syncWithServer (env : NetEnv) (s : SyncState) :
    SyncState × List NetCall :=
  if s.user = none ∨ s.isSyncing then (s, [])
  else
    let s0 := { s with isSyncing := true }
    match env.check with
    | Except.error _ =>
      ({ s0 with serverReachable := false, isSyncing := false },
        [NetCall.check])
    | Except.ok result =>
      if result.error = false ∧ result.lastModified ≠ s0.serverLastModified
      then
        match env.load with
        | Except.error _ =>
          ({ s0 with serverReachable := false, isSyncing := false },
            [NetCall.check, NetCall.load])
        | Except.ok loadResult =>
          match loadResult.data, loadResult.error with
          | some d, false =>
            let merged := mergeData s0.data d
            sharedStep env
              { s0 with
                  data := merged
                  stored := merged
                  serverLastModified := loadResult.lastModified
                  serverReachable := true }
              [NetCall.check, NetCall.load]
          | _, _ => sharedStep env s0 [NetCall.check, NetCall.load]
      else if result.error = true then
        sharedStep env { s0 with serverReachable := false } [NetCall.check]
      else
        sharedStep env { s0 with serverReachable := true } [NetCall.check]

/-- The empty tree. -/
def emptyTree : AppData := { buckets := [] }

/-- A network where every call throws (e.g. the client is offline). -/
def envAllThrow : NetEnv :=
  { check := Except.error (), load := Except.error (),
    shared := Except.error () }

/-- An authenticated, idle, *offline* coordinator state. -/
def sOffline : SyncState :=
  { user := some "u1", isSyncing := false, isOnline := false,
    data := emptyTree, stored := emptyTree, serverLastModified := none,
    serverReachable := true, sharedBucketsData := [] }

/-- An authenticated, idle, online coordinator state. -/
def sIdle : SyncState :=
  { user := some "u1", isSyncing := false, isOnline := true,
    data := emptyTree, stored := emptyTree, serverLastModified := none,
    serverReachable := true, sharedBucketsData := [] }

/-- A coordinator state with a sync cycle already in flight. -/
def sInFlight : SyncState :=
  { user := some "u1", isSyncing := true, isOnline := true,
    data := emptyTree, stored := emptyTree, serverLastModified := none,
    serverReachable := true, sharedBucketsData := [] }

/-- A network whose `load` returns an error result (without throwing). -/
def envLoadErrorResult : NetEnv :=
  { check := Except.ok { error := false, lastModified := some 5 },
    load := Except.ok { error := true, data := none, lastModified := none },
    shared := Except.ok { error := false, buckets := [] } }

/-- `check()` failed: it threw, or returned an error result. -/
def CheckFailed (env : NetEnv) : Prop :=
  env.check = Except.error ()
  ∨ ∃ c, env.check = Except.ok c ∧ c.error = true

/-- Error atomicity of a sync run (amended): the guard is always cleared;
a failed `check` or a *thrown* `load` leaves the tree and store untouched
and marks the server unreachable; a `load` that merely returns an error
result also leaves the tree untouched (but does not mark unreachable). -/
def SyncErrorAtomic (env : NetEnv) (s : SyncState) : Prop :=
  ((syncWithServer env s).1.isSyncing = false)
  ∧ (CheckFailed env →
      (syncWithServer env s).1.serverReachable = false
      ∧ (syncWithServer env s).1.data = s.data
      ∧ (syncWithServer env s).1.stored = s.stored
      ∧ (syncWithServer env s).1.serverLastModified = s.serverLastModified)
  ∧ (∀ c, env.check = Except.ok c → c.error = false →
      ¬c.lastModified = s.serverLastModified →
      env.load = Except.error () →
      (syncWithServer env s).1.serverReachable = false
      ∧ (syncWithServer env s).1.data = s.data
      ∧ (syncWithServer env s).1.stored = s.stored
      ∧ (syncWithServer env s).1.serverLastModified = s.serverLastModified)
  ∧ (∀ c lr, env.check = Except.ok c → c.error = false →
      ¬c.lastModified = s.serverLastModified →
      env.load = Except.ok lr → (lr.data = none ∨ lr.error = true) →
      (syncWithServer env s).1.data = s.data
      ∧ (syncWithServer env s).1.stored = s.stored
      ∧ (syncWithServer env s).1.serverLastModified = s.serverLastModified)

/-! ### Generic lemmas about the Map model -/

/-- Example bookmark: deleted on the local replica. -/
def exBmDel : Bookmark :=
  { id := "x1", title := "old", url := "http://a", description := "",
    tags := [], notes := "", createdAt := 0, updatedAt := 5,
    deleted := some true, deletedAt := some 100 }

/-- Example bookmark: still live on the remote replica, edited later. -/
def exBmLive : Bookmark :=
  { id := "x1", title := "new", url := "http://b", description := "d",
    tags := ["t"], notes := "n", createdAt := 0, updatedAt := 9 }

/-- Example bookmark: live, with the older edit. -/
def exBmOld : Bookmark :=
  { id := "x1", title := "older", url := "http://a", description := "",
    tags := [], notes := "", createdAt := 0, updatedAt := 5 }

/-- Local category holding the deleted copy. -/
def exCatL : Category :=
  { id := "c1", name := "catL", bookmarks := [exBmDel] }

/-- Remote category holding the live copy. -/
def exCatR : Category :=
  { id := "c1", name := "catR", bookmarks := [exBmLive] }

/-- Local category holding the older live copy. -/
def exCatL2 : Category :=
  { id := "c1", name := "catL", bookmarks := [exBmOld] }

/-- Local bucket, carrying sharing metadata. -/
def exBucketL : Bucket :=
  { id := "b1", name := "bucketL", categories := [exCatL],
    isShared := some true, owners := some [], createdBy := some "u1" }

/-- Remote bucket with a different name. -/
def exBucketR : Bucket :=
  { id := "b1", name := "bucketR", categories := [exCatR] }

/-- Local bucket around the older live copy. -/
def exBucketL2 : Bucket :=
  { id := "b1", name := "bucketL", categories := [exCatL2] }

/-- Local example tree. -/
def exL : AppData := { buckets := [exBucketL] }

/-- Remote example tree. -/
def exR : AppData := { buckets := [exBucketR] }

/-- Local example tree with no deletions. -/
def exL2 : AppData := { buckets := [exBucketL2] }

/-- Bookmark whose tombstone is exactly 30 days old at `now = thirtyDaysMs`. -/
def exSweepBm : Bookmark :=
  { id := "sx", title := "t", url := "u", description := "", tags := [],
    notes := "", createdAt := 0, updatedAt := 0, deleted := some true,
    deletedAt := some 0 }

/-- Category around the boundary tombstone. -/
def exSweepCat : Category :=
  { id := "sc", name := "C", bookmarks := [exSweepBm] }

/-- Bucket around the boundary tombstone. -/
def exSweepBucket : Bucket :=
  { id := "sb", name := "B", categories := [exSweepCat] }

/-- Tree around the boundary tombstone. -/
def exSweepData : AppData := { buckets := [exSweepBucket] }


theorem hasKey_eq_true_iff {α : Type} (m : List (String × α)) (k : String) :
    hasKey m k = true ↔ ∃ p ∈ m, p.1 = k := by
  induction m with
  | nil => simp [hasKey]
  | cons p m ih =>
    by_cases h : p.1 = k <;> simp [hasKey, h, ih]

theorem lookupEntry_eq_none_iff {α : Type} (m : List (String × α))
    (k : String) : lookupEntry m k = none ↔ ∀ p ∈ m, p.1 ≠ k := by
  induction m with
  | nil => simp [lookupEntry]
  | cons p m ih =>
    by_cases h : p.1 = k <;> simp [lookupEntry, h, ih]

theorem lookupEntry_jsMapSet_self {α : Type} (m : List (String × α))
    (k : String) (v : α) : lookupEntry (jsMapSet m k v) k = some v := by
  induction m with
  | nil => simp [jsMapSet, hasKey, lookupEntry]
  | cons p m ih =>
    by_cases h : p.1 = k
    · simp [jsMapSet, hasKey, h, lookupEntry]
    · by_cases h2 : hasKey m k
      · simpa [jsMapSet, hasKey, h, h2, lookupEntry] using ih
      · simpa [jsMapSet, hasKey, h, h2, lookupEntry] using ih

theorem lookupEntry_append_single_ne {α : Type} (m : List (String × α))
    (k k' : String) (v : α) (h : k' ≠ k) :
    lookupEntry (m ++ [(k, v)]) k' = lookupEntry m k' := by
  induction m with
  | nil => simp [lookupEntry, Ne.symm h]
  | cons p m ih =>
    by_cases hp : p.1 = k' <;> simp [lookupEntry, hp, ih]

theorem lookupEntry_mapRepl_ne {α : Type} (m : List (String × α))
    (k k' : String) (v : α) (h : k' ≠ k) :
    lookupEntry (m.map (fun p => if p.1 = k then (k, v) else p)) k'
      = lookupEntry m k' := by
  induction m with
  | nil => simp [lookupEntry]
  | cons p m ih =>
    by_cases hp : p.1 = k
    · have hp' : p.1 ≠ k' := by rw [hp]; exact Ne.symm h
      simp [lookupEntry, hp, Ne.symm h, hp', ih]
    · by_cases hq : p.1 = k' <;> simp [lookupEntry, hp, hq, h, ih]

theorem lookupEntry_jsMapSet_ne {α : Type} (m : List (String × α))
    (k k' : String) (v : α) (h : k' ≠ k) :
    lookupEntry (jsMapSet m k v) k' = lookupEntry m k' := by
  unfold jsMapSet
  by_cases hq : hasKey m k
  · simp [hq, lookupEntry_mapRepl_ne m k k' v h]
  · simp [hq, lookupEntry_append_single_ne m k k' v h]

theorem isSome_lookupEntry_jsMapSet {α : Type} (m : List (String × α))
    (k k' : String) (v : α) :
    (lookupEntry (jsMapSet m k v) k').isSome
      ↔ (lookupEntry m k').isSome ∨ k' = k := by
  by_cases h : k' = k
  · subst h; simp [lookupEntry_jsMapSet_self]
  · simp [lookupEntry_jsMapSet_ne m k k' v h, h]

theorem hasKey_eq_isSome_lookupEntry {α : Type} (m : List (String × α))
    (k : String) : hasKey m k = (lookupEntry m k).isSome := by
  induction m with
  | nil => simp [hasKey, lookupEntry]
  | cons p m ih =>
    by_cases hp : p.1 = k <;> simp [hasKey, lookupEntry, hp, ih]

theorem hasKey_eq_false_iff {α : Type} (m : List (String × α)) (k : String) :
    hasKey m k = false ↔ k ∉ keysOf m := by
  induction m with
  | nil => simp [hasKey, keysOf]
  | cons p m ih =>
    by_cases hp : p.1 = k <;> simp [hasKey, keysOf, hp, ih] <;>
      simp [keysOf] at ih ⊢ <;> tauto

theorem insertAll_nil {α : Type} (key : α → String)
    (m : List (String × α)) : insertAll key [] m = m := rfl

theorem insertAll_cons {α : Type} (key : α → String) (x : α) (xs : List α)
    (m : List (String × α)) :
    insertAll key (x :: xs) m = insertAll key xs (jsMapSet m (key x) x) := rfl

theorem mergePhase_nil {α : Type} (key : α → String) (mf : α → α → α)
    (m : List (String × α)) : mergePhase key mf [] m = m := rfl

theorem mergePhase_cons_some {α : Type} (key : α → String) (mf : α → α → α)
    (r : α) (rs : List α) (m : List (String × α)) (l : α)
    (h : lookupEntry m (key r) = some l) :
    mergePhase key mf (r :: rs) m
      = mergePhase key mf rs (jsMapSet m (key r) (mf l r)) := by
  show mergePhase key mf rs
      (match lookupEntry m (key r) with
       | some l => jsMapSet m (key r) (mf l r)
       | none => jsMapSet m (key r) r) = _
  rw [h]

theorem mergePhase_cons_none {α : Type} (key : α → String) (mf : α → α → α)
    (r : α) (rs : List α) (m : List (String × α))
    (h : lookupEntry m (key r) = none) :
    mergePhase key mf (r :: rs) m
      = mergePhase key mf rs (jsMapSet m (key r) r) := by
  show mergePhase key mf rs
      (match lookupEntry m (key r) with
       | some l => jsMapSet m (key r) (mf l r)
       | none => jsMapSet m (key r) r) = _
  rw [h]

theorem lookupEntry_insertAll_of_not_mem {α : Type} (key : α → String)
    (xs : List α) (m : List (String × α)) (k : String)
    (h : ∀ x ∈ xs, key x ≠ k) :
    lookupEntry (insertAll key xs m) k = lookupEntry m k := by
  induction xs generalizing m with
  | nil => rfl
  | cons x xs ih =>
    rw [insertAll_cons, ih _ (fun y hy => h y (by simp [hy])),
      lookupEntry_jsMapSet_ne _ _ _ _ (Ne.symm (h x (by simp)))]

theorem lookupEntry_insertAll_of_mem {α : Type} (key : α → String)
    (xs : List α) (m : List (String × α)) (x : α)
    (hnd : (xs.map key).Nodup) (hx : x ∈ xs) :
    lookupEntry (insertAll key xs m) (key x) = some x := by
  induction xs generalizing m with
  | nil => cases hx
  | cons y ys ih =>
    have hnd' : (∀ x ∈ ys, ¬key x = key y) ∧ (ys.map key).Nodup := by
      simpa using hnd
    rw [insertAll_cons]
    rcases List.mem_cons.mp hx with rfl | hx'
    · rw [lookupEntry_insertAll_of_not_mem key ys _ _
        (fun z hz => hnd'.1 z hz), lookupEntry_jsMapSet_self]
    · exact ih _ hnd'.2 hx'

theorem lookupEntry_mergePhase_of_not_mem {α : Type} (key : α → String)
    (mf : α → α → α) (rs : List α) (m : List (String × α)) (k : String)
    (h : ∀ r ∈ rs, key r ≠ k) :
    lookupEntry (mergePhase key mf rs m) k = lookupEntry m k := by
  induction rs generalizing m with
  | nil => rfl
  | cons r rs ih =>
    have hr : k ≠ key r := Ne.symm (h r (by simp))
    have htail : ∀ y ∈ rs, key y ≠ k := fun y hy => h y (by simp [hy])
    cases hl : lookupEntry m (key r) with
    | none =>
      rw [mergePhase_cons_none key mf r rs m hl, ih _ htail,
        lookupEntry_jsMapSet_ne _ _ _ _ hr]
    | some l =>
      rw [mergePhase_cons_some key mf r rs m l hl, ih _ htail,
        lookupEntry_jsMapSet_ne _ _ _ _ hr]

theorem lookupEntry_mergePhase_of_mem {α : Type} (key : α → String)
    (mf : α → α → α) (rs : List α) (m : List (String × α)) (r : α)
    (hnd : (rs.map key).Nodup) (hr : r ∈ rs) :
    lookupEntry (mergePhase key mf rs m) (key r)
      = some (match lookupEntry m (key r) with
              | some l => mf l r
              | none => r) := by
  induction rs generalizing m with
  | nil => cases hr
  | cons y ys ih =>
    have hnd' : (∀ x ∈ ys, ¬key x = key y) ∧ (ys.map key).Nodup := by
      simpa using hnd
    rcases List.mem_cons.mp hr with rfl | hr'
    · have hf : ∀ z ∈ ys, key z ≠ key r := fun z hz => hnd'.1 z hz
      cases hl : lookupEntry m (key r) with
      | none =>
        rw [mergePhase_cons_none key mf r ys m hl,
          lookupEntry_mergePhase_of_not_mem key mf ys _ _ hf,
          lookupEntry_jsMapSet_self]
      | some l =>
        rw [mergePhase_cons_some key mf r ys m l hl,
          lookupEntry_mergePhase_of_not_mem key mf ys _ _ hf,
          lookupEntry_jsMapSet_self]
    · have hy : key r ≠ key y := hnd'.1 r hr'
      cases hl : lookupEntry m (key y) with
      | none =>
        rw [mergePhase_cons_none key mf y ys m hl, ih _ hnd'.2 hr',
          lookupEntry_jsMapSet_ne _ _ _ _ hy]
      | some l =>
        rw [mergePhase_cons_some key mf y ys m l hl, ih _ hnd'.2 hr',
          lookupEntry_jsMapSet_ne _ _ _ _ hy]

theorem isSome_lookupEntry_insertAll {α : Type} (key : α → String)
    (xs : List α) (m : List (String × α)) (k : String) :
    (lookupEntry (insertAll key xs m) k).isSome
      ↔ (lookupEntry m k).isSome = true ∨ ∃ x ∈ xs, key x = k := by
  induction xs generalizing m with
  | nil => simp [insertAll_nil]
  | cons x xs ih =>
    rw [insertAll_cons, ih, isSome_lookupEntry_jsMapSet]
    simp only [List.mem_cons]
    constructor
    · rintro ((h | h) | ⟨y, hy, he⟩)
      · exact Or.inl h
      · exact Or.inr ⟨x, Or.inl rfl, h.symm⟩
      · exact Or.inr ⟨y, Or.inr hy, he⟩
    · rintro (h | ⟨y, (rfl | hy), he⟩)
      · exact Or.inl (Or.inl h)
      · exact Or.inl (Or.inr he.symm)
      · exact Or.inr ⟨y, hy, he⟩

theorem isSome_lookupEntry_mergePhase {α : Type} (key : α → String)
    (mf : α → α → α) (rs : List α) (m : List (String × α)) (k : String) :
    (lookupEntry (mergePhase key mf rs m) k).isSome
      ↔ (lookupEntry m k).isSome = true ∨ ∃ r ∈ rs, key r = k := by
  induction rs generalizing m with
  | nil => simp [mergePhase_nil]
  | cons r rs ih =>
    have step : ∀ v : α,
        ((lookupEntry (jsMapSet m (key r) v) k).isSome = true
          ∨ ∃ x ∈ rs, key x = k)
        ↔ (lookupEntry m k).isSome = true ∨ ∃ x ∈ r :: rs, key x = k := by
      intro v
      rw [isSome_lookupEntry_jsMapSet]
      simp only [List.mem_cons]
      constructor
      · rintro ((h | h) | ⟨y, hy, he⟩)
        · exact Or.inl h
        · exact Or.inr ⟨r, Or.inl rfl, h.symm⟩
        · exact Or.inr ⟨y, Or.inr hy, he⟩
      · rintro (h | ⟨y, (rfl | hy), he⟩)
        · exact Or.inl (Or.inl h)
        · exact Or.inl (Or.inr he.symm)
        · exact Or.inr ⟨y, hy, he⟩
    cases hl : lookupEntry m (key r) with
    | none => rw [mergePhase_cons_none key mf r rs m hl, ih, step]
    | some l => rw [mergePhase_cons_some key mf r rs m l hl, ih, step]

theorem EntryOk_key_of_lookup {α : Type} (key : α → String)
    (m : List (String × α)) (k : String) (v : α)
    (hm : EntryOk key m) (h : lookupEntry m k = some v) : key v = k := by
  induction m with
  | nil => simp [lookupEntry] at h
  | cons p m ih =>
    by_cases hp : p.1 = k
    · have hv : p.2 = v := by simpa [lookupEntry, hp] using h
      rw [← hv, ← hp]
      exact hm p (by simp)
    · exact ih (fun q hq => hm q (by simp [hq]))
        (by simpa [lookupEntry, hp] using h)

theorem EntryOk_jsMapSet {α : Type} (key : α → String)
    (m : List (String × α)) (k : String) (v : α)
    (hm : EntryOk key m) (hv : key v = k) : EntryOk key (jsMapSet m k v) := by
  unfold jsMapSet
  by_cases hq : hasKey m k
  · simp only [hq, if_true]
    intro p hp
    rcases List.mem_map.mp hp with ⟨q, hq', he⟩
    by_cases hqk : q.1 = k
    · simp only [hqk, if_pos rfl] at he
      rw [← he]
      exact hv
    · simp only [hqk, if_neg hqk] at he
      rw [← he]
      exact hm q hq'
  · simp only [hq, if_false]
    intro p hp
    rcases List.mem_append.mp hp with hp' | hp'
    · exact hm p hp'
    · have : p = (k, v) := by simpa using hp'
      rw [this]
      exact hv

theorem EntryOk_insertAll {α : Type} (key : α → String) (xs : List α)
    (m : List (String × α)) (hm : EntryOk key m) :
    EntryOk key (insertAll key xs m) := by
  induction xs generalizing m with
  | nil => exact hm
  | cons x xs ih =>
    rw [insertAll_cons]
    exact ih _ (EntryOk_jsMapSet key m (key x) x hm rfl)

theorem EntryOk_mergePhase {α : Type} (key : α → String) (mf : α → α → α)
    (rs : List α) (m : List (String × α))
    (hmf : ∀ l r, key l = key r → key (mf l r) = key r)
    (hm : EntryOk key m) : EntryOk key (mergePhase key mf rs m) := by
  induction rs generalizing m with
  | nil => exact hm
  | cons r rs ih =>
    cases hl : lookupEntry m (key r) with
    | none =>
      rw [mergePhase_cons_none key mf r rs m hl]
      exact ih _ (EntryOk_jsMapSet key m (key r) r hm rfl)
    | some l =>
      rw [mergePhase_cons_some key mf r rs m l hl]
      exact ih _ (EntryOk_jsMapSet key m (key r) (mf l r) hm
        (hmf l r (EntryOk_key_of_lookup key m (key r) l hm hl)))

theorem findById_map_snd {α : Type} (key : α → String)
    (m : List (String × α)) (k : String) (hm : EntryOk key m) :
    findById key (m.map Prod.snd) k = lookupEntry m k := by
  induction m with
  | nil => rfl
  | cons p m ih =>
    have hp := hm p (by simp)
    by_cases hq : p.1 = k
    · simp [findById, lookupEntry, hp, hq]
    · simp [findById, lookupEntry, hp, hq,
        ih (fun q hq' => hm q (by simp [hq']))]

/-! ### Characterization of `mergeById` -/

theorem findById_mergeById_both {α : Type} (key : α → String)
    (mf : α → α → α)
    (hmf : ∀ l r, key l = key r → key (mf l r) = key r)
    (ls rs : List α) (l r : α)
    (hls : (ls.map key).Nodup) (hrs : (rs.map key).Nodup)
    (hl : l ∈ ls) (hr : r ∈ rs) (hk : key l = key r) :
    findById key (mergeById key mf ls rs) (key r) = some (mf l r) := by
  have h1 : EntryOk key (mergePhase key mf rs (insertAll key ls [])) :=
    EntryOk_mergePhase key mf rs _ hmf
      (EntryOk_insertAll key ls [] (by intro p hp; cases hp))
  unfold mergeById
  rw [findById_map_snd key _ _ h1,
    lookupEntry_mergePhase_of_mem key mf rs _ r hrs hr, ← hk,
    lookupEntry_insertAll_of_mem key ls [] l hls hl]

theorem findById_mergeById_localOnly {α : Type} (key : α → String)
    (mf : α → α → α)
    (hmf : ∀ l r, key l = key r → key (mf l r) = key r)
    (ls rs : List α) (l : α)
    (hls : (ls.map key).Nodup) (hl : l ∈ ls)
    (habs : ∀ r ∈ rs, key r ≠ key l) :
    findById key (mergeById key mf ls rs) (key l) = some l := by
  have h1 : EntryOk key (mergePhase key mf rs (insertAll key ls [])) :=
    EntryOk_mergePhase key mf rs _ hmf
      (EntryOk_insertAll key ls [] (by intro p hp; cases hp))
  unfold mergeById
  rw [findById_map_snd key _ _ h1,
    lookupEntry_mergePhase_of_not_mem key mf rs _ _ habs,
    lookupEntry_insertAll_of_mem key ls [] l hls hl]

theorem findById_mergeById_remoteOnly {α : Type} (key : α → String)
    (mf : α → α → α)
    (hmf : ∀ l r, key l = key r → key (mf l r) = key r)
    (ls rs : List α) (r : α)
    (hrs : (rs.map key).Nodup) (hr : r ∈ rs)
    (habs : ∀ x ∈ ls, key x ≠ key r) :
    findById key (mergeById key mf ls rs) (key r) = some r := by
  have h1 : EntryOk key (mergePhase key mf rs (insertAll key ls [])) :=
    EntryOk_mergePhase key mf rs _ hmf
      (EntryOk_insertAll key ls [] (by intro p hp; cases hp))
  unfold mergeById
  rw [findById_map_snd key _ _ h1,
    lookupEntry_mergePhase_of_mem key mf rs _ r hrs hr,
    lookupEntry_insertAll_of_not_mem key ls [] (key r) habs]
  rfl

theorem isSome_findById_iff {α : Type} (key : α → String) (xs : List α)
    (k : String) :
    (findById key xs k).isSome ↔ ∃ x ∈ xs, key x = k := by
  induction xs with
  | nil => simp [findById]
  | cons x xs ih =>
    by_cases hx : key x = k <;> simp [findById, hx, ih]

theorem isSome_findById_mergeById {α : Type} (key : α → String)
    (mf : α → α → α)
    (hmf : ∀ l r, key l = key r → key (mf l r) = key r)
    (ls rs : List α) (k : String) :
    (findById key (mergeById key mf ls rs) k).isSome
      ↔ (∃ x ∈ ls, key x = k) ∨ ∃ r ∈ rs, key r = k := by
  have h1 : EntryOk key (mergePhase key mf rs (insertAll key ls [])) :=
    EntryOk_mergePhase key mf rs _ hmf
      (EntryOk_insertAll key ls [] (by intro p hp; cases hp))
  unfold mergeById
  rw [findById_map_snd key _ _ h1, isSome_lookupEntry_mergePhase,
    isSome_lookupEntry_insertAll]
  simp [lookupEntry]

/-! ### Idempotence kit -/

theorem hasKey_append {α : Type} (m m' : List (String × α)) (k : String) :
    hasKey (m ++ m') k = (hasKey m k || hasKey m' k) := by
  induction m with
  | nil => simp [hasKey]
  | cons p m ih =>
    by_cases hp : p.1 = k <;> simp [hasKey, hp, ih]

theorem insertAll_fresh {α : Type} (key : α → String) (xs : List α)
    (m : List (String × α)) (hnd : (xs.map key).Nodup)
    (hfresh : ∀ x ∈ xs, hasKey m (key x) = false) :
    insertAll key xs m = m ++ xs.map (fun x => (key x, x)) := by
  induction xs generalizing m with
  | nil => simp [insertAll_nil]
  | cons x xs ih =>
    have hnd' : (∀ y ∈ xs, ¬key y = key x) ∧ (xs.map key).Nodup := by
      simpa using hnd
    have hx : hasKey m (key x) = false := hfresh x (by simp)
    have hset : jsMapSet m (key x) x = m ++ [(key x, x)] := by
      unfold jsMapSet
      simp [hx]
    rw [insertAll_cons, hset, ih _ hnd'.2]
    · simp
    · intro y hy
      rw [hasKey_append]
      have h1 : hasKey m (key y) = false := hfresh y (by simp [hy])
      have h2 : ¬((key x, x) : String × α).1 = key y :=
        fun he => hnd'.1 y hy he.symm
      simp [h1, hasKey, h2]

theorem mapRepl_of_not_hasKey {α : Type} (m : List (String × α))
    (k : String) (v : α) (h : hasKey m k = false) :
    m.map (fun p => if p.1 = k then (k, v) else p) = m := by
  induction m with
  | nil => rfl
  | cons p m ih =>
    by_cases hp : p.1 = k
    · simp [hasKey, hp] at h
    · have h' : hasKey m k = false := by simpa [hasKey, hp] using h
      simp [hp, ih h']

theorem lookupEntry_of_mem_nodup {α : Type} (m : List (String × α))
    (p : String × α) (hnd : (keysOf m).Nodup) (hp : p ∈ m) :
    lookupEntry m p.1 = some p.2 := by
  induction m with
  | nil => cases hp
  | cons q m ih =>
    have hnd' : (∀ x : α, (q.1, x) ∉ m) ∧ (List.map Prod.fst m).Nodup := by
      simpa [keysOf] using hnd
    rcases List.mem_cons.mp hp with rfl | hp'
    · simp [lookupEntry]
    · have hq : ¬q.1 = p.1 := by
        intro he
        exact hnd'.1 p.2 (by rw [he]; exact hp')
      simp only [lookupEntry, if_neg hq]
      exact ih hnd'.2 hp'

theorem jsMapSet_lookup_id {α : Type} (m : List (String × α)) (k : String)
    (v : α) (hnd : (keysOf m).Nodup) (h : lookupEntry m k = some v) :
    jsMapSet m k v = m := by
  induction m with
  | nil => simp [lookupEntry] at h
  | cons p m ih =>
    have hnd' : (∀ x : α, (p.1, x) ∉ m) ∧ (List.map Prod.fst m).Nodup := by
      simpa [keysOf] using hnd
    by_cases hp : p.1 = k
    · have hv : p.2 = v := by simpa [lookupEntry, hp] using h
      have hfresh : hasKey m k = false := by
        rw [hasKey_eq_false_iff]
        intro hk
        rcases List.mem_map.mp hk with ⟨q, hq, he⟩
        exact hnd'.1 q.2 (by rw [hp, ← he]; exact hq)
      have hKey : hasKey (p :: m) k = true := by simp [hasKey, hp]
      unfold jsMapSet
      rw [hKey]
      simp only [if_true, List.map_cons, if_pos hp,
        mapRepl_of_not_hasKey m k v hfresh]
      have : p = (k, v) := by
        cases p
        simp_all
      rw [← this]
    · have htail : lookupEntry m k = some v := by
        simpa [lookupEntry, hp] using h
      have hK : hasKey m k = true := by
        rw [hasKey_eq_isSome_lookupEntry, htail]
        rfl
      have ihm := ih hnd'.2 htail
      unfold jsMapSet at ihm ⊢
      rw [hK] at ihm
      have hKc : hasKey (p :: m) k = true := by simp [hasKey, hp, hK]
      rw [hKc]
      simp only [if_true] at ihm ⊢
      simp [hp, ihm]

theorem mergePhase_fix {α : Type} (key : α → String) (mf : α → α → α)
    (rs : List α) (M : List (String × α)) (hnd : (keysOf M).Nodup)
    (hfix : ∀ r ∈ rs, ∃ v, lookupEntry M (key r) = some v ∧ mf v r = v) :
    mergePhase key mf rs M = M := by
  induction rs with
  | nil => rfl
  | cons r rs ih =>
    obtain ⟨v, hv, hmfv⟩ := hfix r (by simp)
    rw [mergePhase_cons_some key mf r rs M v hv, hmfv,
      jsMapSet_lookup_id M (key r) v hnd hv]
    exact ih (fun y hy => hfix y (by simp [hy]))

theorem mergeById_self {α : Type} (key : α → String) (mf : α → α → α)
    (xs : List α) (hnd : (xs.map key).Nodup)
    (hid : ∀ x ∈ xs, mf x x = x) :
    mergeById key mf xs xs = xs := by
  have hpairs : insertAll key xs [] = xs.map (fun x => (key x, x)) := by
    simpa using insertAll_fresh key xs [] hnd (fun x _ => rfl)
  have hkeys : keysOf (xs.map (fun x => (key x, x))) = xs.map key := by
    simp [keysOf, List.map_map]
  have hlook : ∀ x ∈ xs,
      lookupEntry (xs.map (fun y => (key y, y))) (key x) = some x := by
    intro x hx
    have := lookupEntry_of_mem_nodup (xs.map (fun y => (key y, y)))
      (key x, x) (by rw [hkeys]; exact hnd)
      (List.mem_map_of_mem _ hx)
    simpa using this
  unfold mergeById
  rw [hpairs, mergePhase_fix key mf xs _ (by rw [hkeys]; exact hnd)
    (fun r hr => ⟨r, hlook r hr, hid r hr⟩), List.map_map]
  have hcomp : (Prod.snd ∘ fun x : α => (key x, x)) = id := rfl
  rw [hcomp, List.map_id]

/-! ### Level instantiations -/

theorem mergeBookmark_key (l r : Bookmark) (h : Bookmark.id l = Bookmark.id r) :
    Bookmark.id (mergeBookmark l r) = Bookmark.id r := by
  unfold mergeBookmark
  split
  · rfl
  · split
    · rfl
    · exact h

theorem findBucket_mergeData_both (L R : AppData) (bl br : Bucket)
    (hL : NodupTree L) (hR : NodupTree R)
    (hbl : bl ∈ L.buckets) (hbr : br ∈ R.buckets) (hid : bl.id = br.id) :
    findBucket (mergeData L R) br.id = some (mergeBucket bl br) :=
  findById_mergeById_both Bucket.id mergeBucket (fun _ _ h => h)
    L.buckets R.buckets bl br hL.1 hR.1 hbl hbr hid

theorem findCategory_mergeBucket_both (bl br : Bucket) (cl cr : Category)
    (hndl : (bl.categories.map Category.id).Nodup)
    (hndr : (br.categories.map Category.id).Nodup)
    (hcl : cl ∈ bl.categories) (hcr : cr ∈ br.categories)
    (hid : cl.id = cr.id) :
    findCategory (mergeBucket bl br) cr.id = some (mergeCategory cl cr) :=
  findById_mergeById_both Category.id mergeCategory (fun _ _ h => h)
    bl.categories br.categories cl cr hndl hndr hcl hcr hid

theorem findBookmark_mergeCategory_both (cl cr : Category)
    (xl xr : Bookmark)
    (hndl : (cl.bookmarks.map Bookmark.id).Nodup)
    (hndr : (cr.bookmarks.map Bookmark.id).Nodup)
    (hxl : xl ∈ cl.bookmarks) (hxr : xr ∈ cr.bookmarks)
    (hid : xl.id = xr.id) :
    findBookmark (mergeCategory cl cr) xr.id = some (mergeBookmark xl xr) :=
  findById_mergeById_both Bookmark.id mergeBookmark mergeBookmark_key
    cl.bookmarks cr.bookmarks xl xr hndl hndr hxl hxr hid

theorem findBucket_mergeData_localOnly (L R : AppData) (bl : Bucket)
    (hL : NodupTree L) (hbl : bl ∈ L.buckets)
    (habs : ∀ br ∈ R.buckets, br.id ≠ bl.id) :
    findBucket (mergeData L R) bl.id = some bl :=
  findById_mergeById_localOnly Bucket.id mergeBucket (fun _ _ h => h)
    L.buckets R.buckets bl hL.1 hbl habs

theorem findCategory_mergeBucket_localOnly (bl br : Bucket) (cl : Category)
    (hndl : (bl.categories.map Category.id).Nodup)
    (hcl : cl ∈ bl.categories)
    (habs : ∀ cr ∈ br.categories, cr.id ≠ cl.id) :
    findCategory (mergeBucket bl br) cl.id = some cl :=
  findById_mergeById_localOnly Category.id mergeCategory (fun _ _ h => h)
    bl.categories br.categories cl hndl hcl habs

/-! ### Node-level merge facts -/

theorem jsOrBool_some_true (a b : Option Bool)
    (h : a = some true ∨ b = some true) : jsOrBool a b = some true := by
  unfold jsOrBool
  by_cases ha : a = some true
  · simp [ha]
  · rcases h with h | h
    · exact absurd h ha
    · simp [ha, h]

theorem jsOrBool_self (a : Option Bool) : jsOrBool a a = a := by
  unfold jsOrBool
  by_cases ha : a = some true <;> simp [ha]

theorem jsOrTime_self (a : Option Int) : jsOrTime a a = a := by
  unfold jsOrTime
  split <;> rfl

theorem mergeBookmark_of_deleted (l r : Bookmark)
    (h : l.deleted = some true ∨ r.deleted = some true) :
    mergeBookmark l r = { r with
      deleted := some true
      deletedAt := jsOrTime l.deletedAt r.deletedAt } := by
  unfold mergeBookmark
  rw [if_pos h]

theorem mergeBookmark_of_not_deleted (l r : Bookmark)
    (hl : ¬l.deleted = some true) (hr : ¬r.deleted = some true) :
    mergeBookmark l r = if l.updatedAt < r.updatedAt then r else l := by
  unfold mergeBookmark
  rw [if_neg (by tauto)]

theorem mergeBookmark_self (x : Bookmark) : mergeBookmark x x = x := by
  by_cases h : x.deleted = some true
  · rw [mergeBookmark_of_deleted x x (Or.inl h), jsOrTime_self, ← h]
  · rw [mergeBookmark_of_not_deleted x x h h]
    simp

theorem mergeCategory_self (c : Category)
    (hnd : (c.bookmarks.map Bookmark.id).Nodup) : mergeCategory c c = c := by
  unfold mergeCategory
  rw [mergeById_self Bookmark.id mergeBookmark c.bookmarks hnd
    (fun x _ => mergeBookmark_self x), jsOrBool_self, jsOrTime_self]

theorem mergeBucket_self (b : Bucket)
    (hnd : (b.categories.map Category.id).Nodup)
    (hcats : ∀ c ∈ b.categories, (c.bookmarks.map Bookmark.id).Nodup) :
    mergeBucket b b = b := by
  unfold mergeBucket
  rw [mergeById_self Category.id mergeCategory b.categories hnd
    (fun c hc => mergeCategory_self c (hcats c hc)), jsOrBool_self,
    jsOrTime_self]

/-- C1: tombstone monotonicity of `mergeData` — for every bucket, category
or bookmark id present in both inputs, a `deleted=true` on either side
forces `deleted=true` on the merged entity; the output is never undeleted
when one input copy was deleted. -/
theorem mergeData_tombstone_monotonic (L R : AppData)
    (hL : NodupTree L) (hR : NodupTree R) : TombstoneMonotonic L R := by
  refine ⟨?_, ?_, ?_⟩
  · intro bl hbl br hbr hid hdel
    exact ⟨mergeBucket bl br,
      findBucket_mergeData_both L R bl br hL hR hbl hbr hid,
      jsOrBool_some_true _ _ hdel⟩
  · intro bl hbl br hbr hid cl hcl cr hcr hcid hdel
    exact ⟨mergeBucket bl br,
      findBucket_mergeData_both L R bl br hL hR hbl hbr hid,
      mergeCategory cl cr,
      findCategory_mergeBucket_both bl br cl cr (hL.2 bl hbl).1
        (hR.2 br hbr).1 hcl hcr hcid,
      jsOrBool_some_true _ _ hdel⟩
  · intro bl hbl br hbr hid cl hcl cr hcr hcid xl hxl xr hxr hxid hdel
    refine ⟨mergeBucket bl br,
      findBucket_mergeData_both L R bl br hL hR hbl hbr hid,
      mergeCategory cl cr,
      findCategory_mergeBucket_both bl br cl cr (hL.2 bl hbl).1
        (hR.2 br hbr).1 hcl hcr hcid,
      mergeBookmark xl xr,
      findBookmark_mergeCategory_both cl cr xl xr
        ((hL.2 bl hbl).2 cl hcl) ((hR.2 br hbr).2 cr hcr) hxl hxr hxid, ?_⟩
    rw [mergeBookmark_of_deleted xl xr hdel]

/-- C2: idempotence of `mergeData` — merging any well-formed tree with
itself returns the tree unchanged (same buckets, categories, bookmarks,
fields and child order). -/
theorem mergeData_idempotent (T : AppData) (hT : NodupTree T) :
    mergeData T T = T := by
  unfold mergeData
  rw [mergeById_self Bucket.id mergeBucket T.buckets hT.1
    (fun b hb => mergeBucket_self b (hT.2 b hb).1 (hT.2 b hb).2)]

/-- C3: leaf timestamp dominance of `mergeData` — for a bookmark id on
both sides with neither copy deleted, the output record is the input with
the strictly greater `updatedAt`; on equal timestamps the local copy is
kept. -/
theorem mergeData_leaf_timestamp_dominance (L R : AppData)
    (hL : NodupTree L) (hR : NodupTree R) : LeafTimestampDominance L R := by
  intro bl hbl br hbr hid cl hcl cr hcr hcid xl hxl xr hxr hxid hnl hnr
  have hfind := findBookmark_mergeCategory_both cl cr xl xr
    ((hL.2 bl hbl).2 cl hcl) ((hR.2 br hbr).2 cr hcr) hxl hxr hxid
  rw [mergeBookmark_of_not_deleted xl xr hnl hnr] at hfind
  exact ⟨mergeBucket bl br,
    findBucket_mergeData_both L R bl br hL hR hbl hbr hid,
    mergeCategory cl cr,
    findCategory_mergeBucket_both bl br cl cr (hL.2 bl hbl).1
      (hR.2 br hbr).1 hcl hcr hcid, hfind⟩

/-- C4: deletion short-circuits field comparison at the bookmark level,
regardless of which copy has the greater `updatedAt`. -/
theorem mergeData_deletion_short_circuit (L R : AppData)
    (hL : NodupTree L) (hR : NodupTree R) : DeletionShortCircuit L R := by
  intro bl hbl br hbr hid cl hcl cr hcr hcid xl hxl xr hxr hxid hdel
  have hfind := findBookmark_mergeCategory_both cl cr xl xr
    ((hL.2 bl hbl).2 cl hcl) ((hR.2 br hbr).2 cr hcr) hxl hxr hxid
  rw [mergeBookmark_of_deleted xl xr hdel] at hfind
  exact ⟨mergeBucket bl br,
    findBucket_mergeData_both L R bl br hL hR hbl hbr hid,
    mergeCategory cl cr,
    findCategory_mergeBucket_both bl br cl cr (hL.2 bl hbl).1
      (hR.2 br hbr).1 hcl hcr hcid,
    _, hfind, rfl, rfl, rfl, rfl, rfl, rfl, rfl, rfl, rfl, rfl⟩

/-- C5: name precedence — bucket and category names are never
timestamp-arbitrated; the remote copy's name always wins on conflict. -/
theorem mergeData_name_precedence (L R : AppData)
    (hL : NodupTree L) (hR : NodupTree R) : NamePrecedence L R := by
  constructor
  · intro bl hbl br hbr hid
    exact ⟨mergeBucket bl br,
      findBucket_mergeData_both L R bl br hL hR hbl hbr hid, rfl⟩
  · intro bl hbl br hbr hid cl hcl cr hcr hcid
    exact ⟨mergeBucket bl br,
      findBucket_mergeData_both L R bl br hL hR hbl hbr hid,
      mergeCategory cl cr,
      findCategory_mergeBucket_both bl br cl cr (hL.2 bl hbl).1
        (hR.2 br hbr).1 hcl hcr hcid, rfl⟩

/-- C6: union completeness of `mergeData` — no id from either input is
dropped, and local-only buckets/categories survive unchanged. -/
theorem mergeData_union_complete (L R : AppData)
    (hL : NodupTree L) (hR : NodupTree R) : UnionCompleteness L R := by
  refine ⟨?_, ?_, ?_, ?_, ?_⟩
  · intro k h
    have h1 : (findById Bucket.id
        (mergeById Bucket.id mergeBucket L.buckets R.buckets) k).isSome := by
      rw [isSome_findById_mergeById Bucket.id mergeBucket (fun _ _ h => h)]
      exact h
    exact (isSome_findById_iff Bucket.id _ k).mp h1
  · intro bl hbl br hbr hid k h
    refine ⟨mergeBucket bl br,
      findBucket_mergeData_both L R bl br hL hR hbl hbr hid, ?_⟩
    have h1 : (findById Category.id (mergeById Category.id mergeCategory
        bl.categories br.categories) k).isSome := by
      rw [isSome_findById_mergeById Category.id mergeCategory
        (fun _ _ h => h)]
      exact h
    exact (isSome_findById_iff Category.id _ k).mp h1
  · intro bl hbl br hbr hid cl hcl cr hcr hcid k h
    refine ⟨mergeBucket bl br,
      findBucket_mergeData_both L R bl br hL hR hbl hbr hid,
      mergeCategory cl cr,
      findCategory_mergeBucket_both bl br cl cr (hL.2 bl hbl).1
        (hR.2 br hbr).1 hcl hcr hcid, ?_⟩
    have h1 : (findById Bookmark.id (mergeById Bookmark.id mergeBookmark
        cl.bookmarks cr.bookmarks) k).isSome := by
      rw [isSome_findById_mergeById Bookmark.id mergeBookmark
        mergeBookmark_key]
      exact h
    exact (isSome_findById_iff Bookmark.id _ k).mp h1
  · intro bl hbl habs
    exact findBucket_mergeData_localOnly L R bl hL hbl habs
  · intro bl hbl br hbr hid cl hcl habs
    exact ⟨mergeBucket bl br,
      findBucket_mergeData_both L R bl br hL hR hbl hbr hid,
      findCategory_mergeBucket_localOnly bl br cl (hL.2 bl hbl).1 hcl habs⟩

/-- C10: implicit frame property of `mergeData` — for a bucket id present
in both inputs the merged bucket's `isShared`, `owners` and `createdBy`
come from the local copy (categories have no such extra fields beyond
`id`), while at the bookmark level a deletion-decided merge takes the
non-tombstone fields from the remote copy. -/
theorem mergeData_frame (L R : AppData)
    (hL : NodupTree L) (hR : NodupTree R) : MergeFrame L R := by
  refine ⟨?_, ?_, ?_⟩
  · intro bl hbl br hbr hid
    exact ⟨mergeBucket bl br,
      findBucket_mergeData_both L R bl br hL hR hbl hbr hid,
      rfl, rfl, rfl, rfl⟩
  · intro bl hbl br hbr hid cl hcl cr hcr hcid
    exact ⟨mergeBucket bl br,
      findBucket_mergeData_both L R bl br hL hR hbl hbr hid,
      mergeCategory cl cr,
      findCategory_mergeBucket_both bl br cl cr (hL.2 bl hbl).1
        (hR.2 br hbr).1 hcl hcr hcid, rfl⟩
  · intro bl hbl br hbr hid cl hcl cr hcr hcid xl hxl xr hxr hxid hdel
    have hfind := findBookmark_mergeCategory_both cl cr xl xr
      ((hL.2 bl hbl).2 cl hcl) ((hR.2 br hbr).2 cr hcr) hxl hxr hxid
    rw [mergeBookmark_of_deleted xl xr hdel] at hfind
    exact ⟨mergeBucket bl br,
      findBucket_mergeData_both L R bl br hL hR hbl hbr hid,
      mergeCategory cl cr,
      findCategory_mergeBucket_both bl br cl cr (hL.2 bl hbl).1
        (hR.2 br hbr).1 hcl hcr hcid,
      _, hfind, rfl, rfl, rfl⟩

theorem keepTomb_eq_false_iff (now : Int) (del : Option Bool)
    (delAt : Option Int) :
    keepTomb now del delAt = false ↔ tombExpired now del delAt := by
  unfold keepTomb tombExpired
  match del, delAt with
  | some true, some t => simp; omega
  | some true, none => simp
  | some false, _ => simp
  | none, _ => simp

theorem keepTomb_eq_true_iff (now : Int) (del : Option Bool)
    (delAt : Option Int) :
    keepTomb now del delAt = true ↔ ¬tombExpired now del delAt := by
  rw [← keepTomb_eq_false_iff]
  cases h : keepTomb now del delAt <;> simp [h]

/-! Generic facts about `findById` over `filter`/`map`. -/

theorem findById_filterMap_absent {α : Type} (key : α → String)
    (p : α → Bool) (g : α → α) (hg : ∀ x, key (g x) = key x)
    (xs : List α) (k : String) (habs : ∀ x ∈ xs, key x ≠ k) :
    findById key ((xs.filter p).map g) k = none := by
  induction xs with
  | nil => rfl
  | cons y ys ih =>
    by_cases hp : p y
    · have hk : ¬key (g y) = k := by rw [hg]; exact habs y (by simp)
      simp only [List.filter_cons, hp, if_pos rfl, List.map_cons, findById,
        if_neg hk]
      exact ih (fun x hx => habs x (by simp [hx]))
    · simp only [List.filter_cons, hp, if_neg, Bool.false_eq_true,
        not_false_eq_true]
      exact ih (fun x hx => habs x (by simp [hx]))

theorem findById_filterMap_dropped {α : Type} (key : α → String)
    (p : α → Bool) (g : α → α) (hg : ∀ x, key (g x) = key x)
    (xs : List α) (x : α) (hnd : (xs.map key).Nodup) (hx : x ∈ xs)
    (hp : p x = false) :
    findById key ((xs.filter p).map g) (key x) = none := by
  induction xs with
  | nil => cases hx
  | cons y ys ih =>
    have hnd' : (∀ z ∈ ys, ¬key z = key y) ∧ (ys.map key).Nodup := by
      simpa using hnd
    rcases List.mem_cons.mp hx with rfl | hx'
    · rw [List.filter_cons_of_neg (by simp [hp])]
      exact findById_filterMap_absent key p g hg ys (key x)
        (fun z hz => hnd'.1 z hz)
    · by_cases hpy : p y
      · have hk : ¬key (g y) = key x := by
          rw [hg]
          intro he
          exact hnd'.1 x hx' he.symm
        rw [List.filter_cons_of_pos hpy, List.map_cons]
        simp only [findById, if_neg hk]
        exact ih hnd'.2 hx'
      · rw [List.filter_cons_of_neg (by simp [hpy])]
        exact ih hnd'.2 hx'

theorem findById_filterMap_kept {α : Type} (key : α → String)
    (p : α → Bool) (g : α → α) (hg : ∀ x, key (g x) = key x)
    (xs : List α) (x : α) (hnd : (xs.map key).Nodup) (hx : x ∈ xs)
    (hp : p x = true) :
    findById key ((xs.filter p).map g) (key x) = some (g x) := by
  induction xs with
  | nil => cases hx
  | cons y ys ih =>
    have hnd' : (∀ z ∈ ys, ¬key z = key y) ∧ (ys.map key).Nodup := by
      simpa using hnd
    rcases List.mem_cons.mp hx with rfl | hx'
    · rw [List.filter_cons_of_pos hp, List.map_cons]
      simp [findById, hg]
    · by_cases hpy : p y
      · have hk : ¬key (g y) = key x := by
          rw [hg]
          intro he
          exact hnd'.1 x hx' he.symm
        rw [List.filter_cons_of_pos hpy, List.map_cons]
        simp only [findById, if_neg hk]
        exact ih hnd'.2 hx'
      · rw [List.filter_cons_of_neg (by simp [hpy])]
        exact ih hnd'.2 hx'

theorem findById_filter_dropped {α : Type} (key : α → String)
    (p : α → Bool) (xs : List α) (x : α) (hnd : (xs.map key).Nodup)
    (hx : x ∈ xs) (hp : p x = false) :
    findById key (xs.filter p) (key x) = none := by
  have := findById_filterMap_dropped key p (fun x => x) (fun _ => rfl)
    xs x hnd hx hp
  simpa using this

theorem findById_filter_kept {α : Type} (key : α → String)
    (p : α → Bool) (xs : List α) (x : α) (hnd : (xs.map key).Nodup)
    (hx : x ∈ xs) (hp : p x = true) :
    findById key (xs.filter p) (key x) = some x := by
  have := findById_filterMap_kept key p (fun x => x) (fun _ => rfl)
    xs x hnd hx hp
  simpa using this

/-- C7 (amended boundary): the sweep removes exactly the entities whose
own tombstone is at least 30 days old at `now`; every entity strictly
inside the window survives with all fields unchanged apart from the sweep
of its own children. -/
theorem cleanupOldTombstones_exact (now : Int) (d : AppData)
    (hd : NodupTree d) : CleanupSpec now d := by
  constructor
  · intro b hb hexp
    exact findById_filterMap_dropped Bucket.id _ (sweepBucket now)
      (fun _ => rfl) d.buckets b hd.1 hb
      ((keepTomb_eq_false_iff now b.deleted b.deletedAt).mpr hexp)
  · intro b hb hkeep
    refine ⟨sweepBucket now b,
      findById_filterMap_kept Bucket.id _ (sweepBucket now)
        (fun _ => rfl) d.buckets b hd.1 hb
        ((keepTomb_eq_true_iff now b.deleted b.deletedAt).mpr hkeep),
      rfl, rfl, rfl, rfl, rfl, rfl, rfl, ?_, ?_⟩
    · intro c hc hexp
      exact findById_filterMap_dropped Category.id _ (sweepCategory now)
        (fun _ => rfl) b.categories c (hd.2 b hb).1 hc
        ((keepTomb_eq_false_iff now c.deleted c.deletedAt).mpr hexp)
    · intro c hc hkeepc
      refine ⟨sweepCategory now c,
        findById_filterMap_kept Category.id _ (sweepCategory now)
          (fun _ => rfl) b.categories c (hd.2 b hb).1 hc
          ((keepTomb_eq_true_iff now c.deleted c.deletedAt).mpr hkeepc),
        rfl, rfl, rfl, rfl, ?_, ?_⟩
      · intro x hx hexp
        exact findById_filter_dropped Bookmark.id _ c.bookmarks x
          ((hd.2 b hb).2 c hc) hx
          ((keepTomb_eq_false_iff now x.deleted x.deletedAt).mpr hexp)
      · intro x hx hkeepx
        exact findById_filter_kept Bookmark.id _ c.bookmarks x
          ((hd.2 b hb).2 c hc) hx
          ((keepTomb_eq_true_iff now x.deleted x.deletedAt).mpr hkeepx)

theorem sharedStep_isSyncing (env : NetEnv) (s1 : SyncState)
    (calls : List NetCall) : (sharedStep env s1 calls).1.isSyncing = false := by
  unfold sharedStep
  cases henv : env.shared with
  | error e => rfl
  | ok r => by_cases hr : r.error = false <;> simp [hr]

theorem sharedStep_data (env : NetEnv) (s1 : SyncState)
    (calls : List NetCall) : (sharedStep env s1 calls).1.data = s1.data := by
  unfold sharedStep
  cases henv : env.shared with
  | error e => rfl
  | ok r => by_cases hr : r.error = false <;> simp [hr]

theorem sharedStep_stored (env : NetEnv) (s1 : SyncState)
    (calls : List NetCall) :
    (sharedStep env s1 calls).1.stored = s1.stored := by
  unfold sharedStep
  cases henv : env.shared with
  | error e => rfl
  | ok r => by_cases hr : r.error = false <;> simp [hr]

theorem sharedStep_slm (env : NetEnv) (s1 : SyncState)
    (calls : List NetCall) :
    (sharedStep env s1 calls).1.serverLastModified
      = s1.serverLastModified := by
  unfold sharedStep
  cases henv : env.shared with
  | error e => rfl
  | ok r => by_cases hr : r.error = false <;> simp [hr]

theorem sharedStep_reachable_false (env : NetEnv) (s1 : SyncState)
    (calls : List NetCall) (h : s1.serverReachable = false) :
    (sharedStep env s1 calls).1.serverReachable = false := by
  unfold sharedStep
  cases henv : env.shared with
  | error e => rfl
  | ok r => by_cases hr : r.error = false <;> simp [hr, h]

theorem syncWithServer_run_checkThrow (env : NetEnv) (s : SyncState)
    (hu : ¬s.user = none) (hs : s.isSyncing = false)
    (hc : env.check = Except.error ()) :
    syncWithServer env s
      = ({ s with serverReachable := false, isSyncing := false },
         [NetCall.check]) := by
  simp [syncWithServer, hu, hs, hc]

theorem syncWithServer_run_checkError (env : NetEnv) (s : SyncState)
    (c : CheckResult) (hu : ¬s.user = none) (hs : s.isSyncing = false)
    (hc : env.check = Except.ok c) (he : c.error = true) :
    syncWithServer env s
      = sharedStep env
          { s with isSyncing := true, serverReachable := false }
          [NetCall.check] := by
  simp [syncWithServer, hu, hs, hc, he]

theorem syncWithServer_run_noChange (env : NetEnv) (s : SyncState)
    (c : CheckResult) (hu : ¬s.user = none) (hs : s.isSyncing = false)
    (hc : env.check = Except.ok c) (he : c.error = false)
    (hst : c.lastModified = s.serverLastModified) :
    syncWithServer env s
      = sharedStep env
          { s with isSyncing := true, serverReachable := true }
          [NetCall.check] := by
  simp [syncWithServer, hu, hs, hc, he, hst]

theorem syncWithServer_run_loadThrow (env : NetEnv) (s : SyncState)
    (c : CheckResult) (hu : ¬s.user = none) (hs : s.isSyncing = false)
    (hc : env.check = Except.ok c) (he : c.error = false)
    (hst : ¬c.lastModified = s.serverLastModified)
    (hl : env.load = Except.error ()) :
    syncWithServer env s
      = ({ s with serverReachable := false, isSyncing := false },
         [NetCall.check, NetCall.load]) := by
  simp [syncWithServer, hu, hs, hc, he, hst, hl]

theorem syncWithServer_run_loadSkip (env : NetEnv) (s : SyncState)
    (c : CheckResult) (lr : LoadResult)
    (hu : ¬s.user = none) (hs : s.isSyncing = false)
    (hc : env.check = Except.ok c) (he : c.error = false)
    (hst : ¬c.lastModified = s.serverLastModified)
    (hl : env.load = Except.ok lr)
    (hskip : lr.data = none ∨ lr.error = true) :
    syncWithServer env s
      = sharedStep env { s with isSyncing := true }
          [NetCall.check, NetCall.load] := by
  rcases hskip with hld | herr
  · simp [syncWithServer, hu, hs, hc, he, hst, hl, hld]
  · cases hld : lr.data with
    | none => simp [syncWithServer, hu, hs, hc, he, hst, hl, hld]
    | some d => simp [syncWithServer, hu, hs, hc, he, hst, hl, hld, herr]

theorem syncWithServer_run_loadOk (env : NetEnv) (s : SyncState)
    (c : CheckResult) (lr : LoadResult) (d : AppData)
    (hu : ¬s.user = none) (hs : s.isSyncing = false)
    (hc : env.check = Except.ok c) (he : c.error = false)
    (hst : ¬c.lastModified = s.serverLastModified)
    (hl : env.load = Except.ok lr)
    (hld : lr.data = some d) (herr : lr.error = false) :
    syncWithServer env s
      = sharedStep env
          { s with
              isSyncing := true
              data := mergeData s.data d
              stored := mergeData s.data d
              serverLastModified := lr.lastModified
              serverReachable := true }
          [NetCall.check, NetCall.load] := by
  simp [syncWithServer, hu, hs, hc, he, hst, hl, hld, herr]

/-- C8 counterexample: invoked while offline (but authenticated and not
in flight), `syncWithServer` is not a no-op — it still issues the remote
check and, when that fails, changes observable state by marking the
server unreachable. The function contains no offline test. -/
theorem syncWithServer_offline_not_noop :
    sOffline.isOnline = false ∧ sOffline.serverReachable = true ∧
    (syncWithServer envAllThrow sOffline).2 = [NetCall.check] ∧
    (syncWithServer envAllThrow sOffline).1.serverReachable = false := by
  refine ⟨rfl, rfl, ?_, ?_⟩ <;> decide

/-- C8 (amended): `syncWithServer` is a no-op — no network call, no state
change — iff a sync cycle is already in flight or there is no
authenticated identity; in particular a second invocation arriving while
the first still holds the `isSyncingRef` guard does nothing, so two
overlapping invocations issue one round trip. The offline flag is not
consulted by the function. -/
theorem syncWithServer_guard (env : NetEnv) (s : SyncState)
    (h : s.user = none ∨ s.isSyncing = true) :
    syncWithServer env s = (s, []) := by
  unfold syncWithServer
  rw [if_pos h]

theorem syncWithServer_guard_witness :
    (sInFlight.user = none ∨ sInFlight.isSyncing = true) ∧
    syncWithServer envAllThrow sInFlight = (sInFlight, []) :=
  ⟨Or.inr rfl, syncWithServer_guard envAllThrow sInFlight (Or.inr rfl)⟩

/-- C9 counterexample: in a run where `load()` fails by returning an error
result, the local tree is untouched and the guard cleared, but
`serverReachable` is *not* set to false (the `if` around the merge has no
else branch), so the remote-unreachable status is not surfaced. -/
theorem syncWithServer_loadError_not_marked :
    (∃ lr, envLoadErrorResult.load = Except.ok lr ∧ lr.error = true) ∧
    (syncWithServer envLoadErrorResult sIdle).1.serverReachable = true ∧
    (syncWithServer envLoadErrorResult sIdle).1.data = sIdle.data ∧
    (syncWithServer envLoadErrorResult sIdle).2
      = [NetCall.check, NetCall.load, NetCall.sharedLoadAll] :=
  ⟨⟨_, rfl, rfl⟩, by decide, by decide, by decide⟩

/-- C9 (amended): error atomicity of `syncWithServer` for every
authenticated, idle starting state and every network behaviour. -/
theorem syncWithServer_error_atomic (env : NetEnv) (s : SyncState)
    (hu : ¬s.user = none) (hs : s.isSyncing = false) :
    SyncErrorAtomic env s := by
  refine ⟨?_, ?_, ?_, ?_⟩
  · cases hc : env.check with
    | error e =>
      cases e
      rw [syncWithServer_run_checkThrow env s hu hs hc]
    | ok c =>
      by_cases he : c.error = true
      · rw [syncWithServer_run_checkError env s c hu hs hc he]
        exact sharedStep_isSyncing env _ _
      · have he' : c.error = false := by simpa using he
        by_cases hst : c.lastModified = s.serverLastModified
        · rw [syncWithServer_run_noChange env s c hu hs hc he' hst]
          exact sharedStep_isSyncing env _ _
        · cases hl : env.load with
          | error e =>
            cases e
            rw [syncWithServer_run_loadThrow env s c hu hs hc he' hst hl]
          | ok lr =>
            cases hld : lr.data with
            | none =>
              rw [syncWithServer_run_loadSkip env s c lr hu hs hc he' hst
                hl (Or.inl hld)]
              exact sharedStep_isSyncing env _ _
            | some d =>
              by_cases herr : lr.error = true
              · rw [syncWithServer_run_loadSkip env s c lr hu hs hc he' hst
                  hl (Or.inr herr)]
                exact sharedStep_isSyncing env _ _
              · have herr' : lr.error = false := by simpa using herr
                rw [syncWithServer_run_loadOk env s c lr d hu hs hc he' hst
                  hl hld herr']
                exact sharedStep_isSyncing env _ _
  · intro hcf
    rcases hcf with hc | ⟨c, hc, he⟩
    · rw [syncWithServer_run_checkThrow env s hu hs hc]
      exact ⟨rfl, rfl, rfl, rfl⟩
    · rw [syncWithServer_run_checkError env s c hu hs hc he]
      exact ⟨sharedStep_reachable_false env _ _ rfl,
        sharedStep_data env _ _, sharedStep_stored env _ _,
        sharedStep_slm env _ _⟩
  · intro c hc he hst hl
    rw [syncWithServer_run_loadThrow env s c hu hs hc he hst hl]
    exact ⟨rfl, rfl, rfl, rfl⟩
  · intro c lr hc he hst hl hskip
    rw [syncWithServer_run_loadSkip env s c lr hu hs hc he hst hl hskip]
    exact ⟨sharedStep_data env _ _, sharedStep_stored env _ _,
      sharedStep_slm env _ _⟩

theorem syncWithServer_error_atomic_witness :
    (¬sIdle.user = none) ∧ sIdle.isSyncing = false ∧
    SyncErrorAtomic envAllThrow sIdle :=
  ⟨by decide, rfl, syncWithServer_error_atomic envAllThrow sIdle
    (by decide) rfl⟩

theorem mergeData_tombstone_monotonic_witness :
    NodupTree exL ∧ NodupTree exR ∧ TombstoneMonotonic exL exR :=
  ⟨by decide, by decide,
    mergeData_tombstone_monotonic exL exR (by decide) (by decide)⟩

theorem mergeData_idempotent_witness :
    NodupTree exL ∧ mergeData exL exL = exL :=
  ⟨by decide, mergeData_idempotent exL (by decide)⟩

theorem mergeData_leaf_timestamp_dominance_witness :
    NodupTree exL2 ∧ NodupTree exR ∧ LeafTimestampDominance exL2 exR :=
  ⟨by decide, by decide,
    mergeData_leaf_timestamp_dominance exL2 exR (by decide) (by decide)⟩

theorem mergeData_deletion_short_circuit_witness :
    NodupTree exL ∧ NodupTree exR ∧ DeletionShortCircuit exL exR :=
  ⟨by decide, by decide,
    mergeData_deletion_short_circuit exL exR (by decide) (by decide)⟩

theorem mergeData_name_precedence_witness :
    NodupTree exL ∧ NodupTree exR ∧ NamePrecedence exL exR :=
  ⟨by decide, by decide,
    mergeData_name_precedence exL exR (by decide) (by decide)⟩

theorem mergeData_union_complete_witness :
    NodupTree exL ∧ NodupTree exR ∧ UnionCompleteness exL exR :=
  ⟨by decide, by decide,
    mergeData_union_complete exL exR (by decide) (by decide)⟩

theorem mergeData_frame_witness :
    NodupTree exL ∧ NodupTree exR ∧ MergeFrame exL exR :=
  ⟨by decide, by decide, mergeData_frame exL exR (by decide) (by decide)⟩

theorem cleanupOldTombstones_exact_witness :
    NodupTree exSweepData ∧ CleanupSpec thirtyDaysMs exSweepData :=
  ⟨by decide,
    cleanupOldTombstones_exact thirtyDaysMs exSweepData (by decide)⟩

/-- Boundary counterexample for the sweep claim: a bookmark deleted
exactly 30 days before `now` satisfies `now - deletedAt ≤ retention`
(which the claim says keeps it present and unchanged), yet the sweep
removes it: the code keeps only tombstones strictly inside the window. -/
theorem cleanupOldTombstones_boundary_counterexample :
    exSweepBm.deleted = some true ∧ exSweepBm.deletedAt = some 0 ∧
    thirtyDaysMs - 0 ≤ thirtyDaysMs ∧
    (cleanupOldTombstones thirtyDaysMs exSweepData).buckets.map
      (fun b => b.categories.map Category.bookmarks) = [[[]]] := by
  refine ⟨rfl, rfl, by decide, by decide⟩
